import Mathlib

/-!
Verification of the menu-translator extraction-and-enrichment pipeline.

The development shallowly embeds the JavaScript source:
* the vision-response parser of `App.svelte` / `processImage`
  (regex bracket-span extraction, `JSON.parse`, fail-closed schema
  validation, in both the plain and the position-requiring variant);
* the Wikipedia enrichment resolver `getWikipediaImage` and the per-item
  enrichment loop of the serverless `handler`;
* the request gate of the `handler` (method check and input validation);
* the client-side image preprocessor described in the specification.

Response texts are modelled as `List Char`; JavaScript objects decoded by
`JSON.parse` are modelled by the inductive type `Json`; the external
Wikipedia collaborators (`fetch` of a search url / of a summary url) are
modelled by an environment of oracles, with an explicit outcome for a
thrown error, and the queries a run issues are collected in a trace so
that consultation order is provable.
-/

namespace MenuPipeline

/-- JavaScript values produced by `JSON.parse`: null, booleans, numbers
(kept as a decimal mantissa/exponent pair `m * 10 ^ (-e)`), strings,
arrays and objects (ordered key/value lists, as JS preserves key order). -/
inductive Json : Type
  | null : Json
  | bool : Bool → Json
  | num : Int → Nat → Json
  | str : String → Json
  | arr : List Json → Json
  | obj : List (String × Json) → Json

/-- Whitespace accepted by the JSON grammar. -/
def isJsonWs (c : Char) : Bool :=
  c = ' ' ∨ c = '\t' ∨ c = '\n' ∨ c = '\r'

/-- Drop leading JSON whitespace. -/
def skipWs (cs : List Char) : List Char :=
  cs.dropWhile isJsonWs

/-- Translation of a JSON string escape character. -/
def escChar (c : Char) : Option Char :=
  if c = '"' then some '"'
  else if c = '\\' then some '\\'
  else if c = '/' then some '/'
  else if c = 'b' then some (Char.ofNat 8)
  else if c = 'f' then some (Char.ofNat 12)
  else if c = 'n' then some '\n'
  else if c = 'r' then some (Char.ofNat 13)
  else if c = 't' then some '\t'
  else none

/-- Parse the body of a JSON string literal (the opening quote already
consumed), returning the decoded characters and the rest of the input.
Control characters and unsupported escapes are rejected, as `JSON.parse`
rejects malformed string literals (the `\uXXXX` form is not modelled). -/
def pStrChars : List Char → Option (List Char × List Char)
  | [] => none
  | c :: rest =>
    if c = '"' then some ([], rest)
    else if c = '\\' then
      match rest with
      | [] => none
      | e :: rest2 =>
        match escChar e with
        | none => none
        | some d =>
          match pStrChars rest2 with
          | none => none
          | some (s, r) => some (d :: s, r)
    else if c.toNat < 32 then none
    else
      match pStrChars rest with
      | none => none
      | some (s, r) => some (c :: s, r)

/-- Take a maximal run of decimal digits. -/
def takeDigits (cs : List Char) : List Char × List Char :=
  (cs.takeWhile Char.isDigit, cs.dropWhile Char.isDigit)

/-- Numeric value of a digit list. -/
def digitsVal (ds : List Char) : Nat :=
  ds.foldl (fun a c => a * 10 + (c.toNat - 48)) 0

/-- Parse a JSON number literal (optional minus sign, integer part with no
leading zero, optional fraction, optional exponent), returning the value
as mantissa and decimal-shift and the remaining input. -/
def pNum (cs : List Char) : Option (Json × List Char) :=
  let (neg, cs1) :=
    match cs with
    | '-' :: rest => (true, rest)
    | _ => (false, cs)
  let (ip, cs2) := takeDigits cs1
  if ip = [] then none
  else if ip.length > 1 ∧ ip.head? = some '0' then none
  else
    let (fr, cs3) :=
      match cs2 with
      | '.' :: rest =>
        let (f, r) := takeDigits rest
        (f, r)
      | _ => ([], cs2)
    if cs2 ≠ cs3 ∧ fr = [] then none
    else
      let ex :=
        match cs3 with
        | 'e' :: rest => some rest
        | 'E' :: rest => some rest
        | _ => none
      match ex with
      | none =>
        let m : Int := (digitsVal ip * 10 ^ fr.length + digitsVal fr : Nat)
        some (Json.num (if neg then -m else m) fr.length, cs3)
      | some rest =>
        let (esign, rest1) :=
          match rest with
          | '+' :: r => (1, r)
          | '-' :: r => (-1, r)
          | _ => ((1 : Int), rest)
        let (ed, rest2) := takeDigits rest1
        if ed = [] then none
        else
          -- the exponent only shifts the decimal point; fold it into the pair
          let base : Int := (digitsVal ip * 10 ^ fr.length + digitsVal fr : Nat)
          let m : Int := if neg then -base else base
          let e : Int := esign * (digitsVal ed : Int) - fr.length
          if e ≥ 0 then some (Json.num (m * 10 ^ e.toNat) 0, rest2)
          else some (Json.num m (-e).toNat, rest2)

/-- Update-or-append of a key in an ordered field list, with JS object
key semantics: an existing key keeps its position and its value is
replaced, a new key is appended at the end. -/
def setKey : List (String × Json) → String → Json → List (String × Json)
  | [], k, v => [(k, v)]
  | (k', v') :: fs, k, v =>
    if k' = k then (k, v) :: fs else (k', v') :: setKey fs k v

/-- Fold a parsed member list into an object field list; a duplicate key
overwrites the earlier value in place, as `JSON.parse` does. -/
def canonKeys (ps : List (String × Json)) : List (String × Json) :=
  ps.foldl (fun acc kv => setKey acc kv.1 kv.2) []

mutual

/-- Parse one JSON value, fuel-bounded (the fuel strictly dominates the
nesting depth of the input, so `jsonParse` below never exhausts it). -/
def pVal : Nat → List Char → Option (Json × List Char)
  | 0, _ => none
  | fuel + 1, cs =>
    match skipWs cs with
    | [] => none
    | 'n' :: 'u' :: 'l' :: 'l' :: rest => some (Json.null, rest)
    | 't' :: 'r' :: 'u' :: 'e' :: rest => some (Json.bool true, rest)
    | 'f' :: 'a' :: 'l' :: 's' :: 'e' :: rest => some (Json.bool false, rest)
    | '"' :: rest =>
      match pStrChars rest with
      | none => none
      | some (s, r) => some (Json.str (String.mk s), r)
    | '[' :: rest =>
      match skipWs rest with
      | ']' :: r => some (Json.arr [], r)
      | _ =>
        match pElems fuel rest with
        | none => none
        | some (vs, r) => some (Json.arr vs, r)
    | '{' :: rest =>
      match skipWs rest with
      | '}' :: r => some (Json.obj [], r)
      | _ =>
        match pMembers fuel rest with
        | none => none
        | some (fs, r) => some (Json.obj (canonKeys fs), r)
    | c :: rest =>
      if c = '-' ∨ c.isDigit then pNum (c :: rest) else none

/-- Parse one-or-more comma-separated array elements up to `]`. -/
def pElems : Nat → List Char → Option (List Json × List Char)
  | 0, _ => none
  | fuel + 1, cs =>
    match pVal fuel cs with
    | none => none
    | some (v, r) =>
      match skipWs r with
      | ',' :: r2 =>
        match pElems fuel r2 with
        | none => none
        | some (vs, r3) => some (v :: vs, r3)
      | ']' :: r2 => some ([v], r2)
      | _ => none

/-- Parse one-or-more comma-separated object members up to `}`. -/
def pMembers : Nat → List Char → Option (List (String × Json) × List Char)
  | 0, _ => none
  | fuel + 1, cs =>
    match skipWs cs with
    | '"' :: rest =>
      match pStrChars rest with
      | none => none
      | some (k, r) =>
        match skipWs r with
        | ':' :: r2 =>
          match pVal fuel r2 with
          | none => none
          | some (v, r3) =>
            match skipWs r3 with
            | ',' :: r4 =>
              match pMembers fuel r4 with
              | none => none
              | some (fs, r5) => some ((String.mk k, v) :: fs, r5)
            | '}' :: r4 => some ([(String.mk k, v)], r4)
            | _ => none
        | _ => none
    | _ => none

end

/-- Model of the JavaScript builtin `JSON.parse`: parse a complete JSON
document, requiring the whole input to be consumed (up to trailing
whitespace). `none` models a thrown `SyntaxError`. -/
def jsonParse (cs : List Char) : Option Json :=
  match pVal (2 * cs.length + 2) cs with
  | none => none
  | some (v, r) => if skipWs r = [] then some v else none

/-! ### The bracket-span regex

`processImage` extracts the JSON payload with
`responseText.match(/\[[\s\S]*\]/`: the match starts at the leftmost
position where the pattern can succeed (the first `[` that has some `]`
after it) and the greedy star extends the match to the last `]` of the
text. -/

/-- Character test: not a closing bracket. -/
def notRB (c : Char) : Bool :=
  if c = ']' then false else true

/-- Prefix of `cs` ending at (and including) the last `]` of `cs`; used to
model the greedy `[\s\S]*` which backtracks from the end of the input to
the final `]`. -/
def takeToLastRB (cs : List Char) : List Char :=
  (cs.reverse.dropWhile notRB).reverse

/-- Model of `responseText.match(/\[[\s\S]*\]/` (first capture): scan for
the leftmost `[` that is followed by some `]`, and match through the last
`]` of the text. `none` models a null match result. -/
def reMatch : List Char → Option (List Char)
  | [] => none
  | c :: rest =>
    if c = '[' ∧ ']' ∈ rest then some ('[' :: takeToLastRB rest)
    else reMatch rest

/-! ### JavaScript value helpers -/

/-- Reading a property of a JavaScript value: on an object it looks the
key up (`none` models `undefined` for an absent key); on `null` it throws
a `TypeError`, modelled by `Except.error`; on any other value the lookup
yields `undefined` (string indices and `length` are not reachable here:
the code only reads the keys `name`, `definition`, `position`, `x`, `y`,
`imageUrl`). -/
def jsField : Json → String → Except Unit (Option Json)
  | Json.null, _ => Except.error ()
  | Json.obj fs, k => Except.ok (fs.lookup k)
  | _, _ => Except.ok none

/-- Total variant of `jsField` used to state properties: the `null` base
(which throws in JS) reads as an absent field. -/
def jsFieldT : Json → String → Option Json
  | Json.obj fs, k => fs.lookup k
  | _, _ => none

/-- JavaScript truthiness of an expression result (`none` is
`undefined`): `undefined`, `null`, `false`, `0` and `""` are falsy,
everything else is truthy. -/
def jsTruthy : Option Json → Bool
  | none => false
  | some Json.null => false
  | some (Json.bool b) => b
  | some (Json.num m _) => ¬ m = 0
  | some (Json.str s) => ¬ s = ""
  | some (Json.arr _) => true
  | some (Json.obj _) => true

/-- Test for `typeof v === 'number'` on a field-read result. -/
def isNumV : Option Json → Bool
  | some (Json.num _ _) => true
  | _ => false

/-! ### The response parser (`processImage`)

Both deployed variants share the shape

```text
const jsonMatch = responseText.match(/\[[\s\S]*\]/;
if (jsonMatch) {
  const parsed = JSON.parse(jsonMatch[0]);
  if (Array.isArray(parsed) && parsed.every(item => CHECK)) {
    matchedTerms = parsed;
  } else { console.warn(...); matchedTerms = []; }
} else { matchedTerms = []; }
```

inside a `try` whose `catch` sets `matchedTerms = []` and
`error = 'Failed to parse response. Please try again.'`. The plain
variant checks `item.name && item.definition`; the position-requiring
variant additionally checks `item.position`,
`typeof item.position.x === 'number'` and
`typeof item.position.y === 'number'`. -/

/-- Kind of parse failure diagnosed by the code: the `catch` branch
(malformed JSON or a `TypeError` raised during validation) or the
`console.warn` branch (array whose schema validation returned false). -/
inductive ParseKind : Type
  | malformedJson : ParseKind
  | schemaInvalid : ParseKind

/-- What the parse step of `processImage` leaves behind: the value of
`matchedTerms`, which diagnostic branch (if any) ran, and the value
assigned to the user-facing `error` state variable. -/
structure ParseOutcome : Type where
  items : List Json
  failure : Option ParseKind
  uiError : Option String

/-- The message assigned to `error` in the parse `catch` branch. -/
def parseFailMsg : String := "Failed to parse response. Please try again."

/-- Validation of one decoded element: the JS conjunction
`item.name && item.definition` and, when `requirePos` is set,
`&& item.position && typeof item.position.x === 'number' &&
typeof item.position.y === 'number'`, with JS short-circuiting; a
`TypeError` (field read on `null`) is `Except.error`. -/
def validateItem (requirePos : Bool) (item : Json) : Except Unit Bool :=
  match jsField item "name" with
  | Except.error _ => Except.error ()
  | Except.ok n =>
    if ¬ jsTruthy n then Except.ok false
    else
      match jsField item "definition" with
      | Except.error _ => Except.error ()
      | Except.ok d =>
        if ¬ jsTruthy d then Except.ok false
        else if ¬ requirePos then Except.ok true
        else
          match jsField item "position" with
          | Except.error _ => Except.error ()
          | Except.ok p =>
            if ¬ jsTruthy p then Except.ok false
            else
              match p with
              | none => Except.ok false
              | some pv =>
                match jsField pv "x" with
                | Except.error _ => Except.error ()
                | Except.ok x =>
                  if ¬ isNumV x then Except.ok false
                  else
                    match jsField pv "y" with
                    | Except.error _ => Except.error ()
                    | Except.ok y => Except.ok (isNumV y)

/-- The JS `parsed.every(item => ...)` call: stops at the first element
whose check returns false, propagates a thrown `TypeError`. -/
def validateAll (requirePos : Bool) : List Json → Except Unit Bool
  | [] => Except.ok true
  | e :: es =>
    match validateItem requirePos e with
    | Except.error _ => Except.error ()
    | Except.ok true => validateAll requirePos es
    | Except.ok false => Except.ok false

/-- The branch of `processImage` that runs after `JSON.parse` succeeded
with value `v`: `Array.isArray` plus `every`-validation; a validation
throw lands in the surrounding `catch` (malformed-JSON outcome). -/
def processParsed (requirePos : Bool) (v : Json) : ParseOutcome :=
  match v with
  | Json.arr elems =>
    match validateAll requirePos elems with
    | Except.error _ => ⟨[], some ParseKind.malformedJson, some parseFailMsg⟩
    | Except.ok true => ⟨elems, none, none⟩
    | Except.ok false => ⟨[], some ParseKind.schemaInvalid, none⟩
  | _ => ⟨[], some ParseKind.schemaInvalid, none⟩

/-- The complete parse step of `processImage` on the raw response text:
bracket-span extraction, `JSON.parse`, then validation. A missing span is
zero items with no failure; a `JSON.parse` error is the `catch` branch. -/
def parseResponse (requirePos : Bool) (s : List Char) : ParseOutcome :=
  match reMatch s with
  | none => ⟨[], none, none⟩
  | some m =>
    match jsonParse m with
    | none => ⟨[], some ParseKind.malformedJson, some parseFailMsg⟩
    | some v => processParsed requirePos v

/-- The text contains a `[` that is followed, somewhere later, by a `]`
(the condition under which `/\[[\s\S]*\]/` can match at all). -/
def hasPair (s : List Char) : Prop :=
  ∃ l mid r, s = l ++ '[' :: (mid ++ ']' :: r)

/-- An element is not the JS value `null` (reading a property of `null`
throws, every other decoded value reads as an object or as `undefined`). -/
def nonNull : Json → Bool
  | Json.null => false
  | _ => true

/-- The `item.name && item.definition` clause of the validation predicate,
as a total Boolean on decoded values. -/
def nameDefCheck (e : Json) : Bool :=
  jsTruthy (jsFieldT e "name") && jsTruthy (jsFieldT e "definition")

/-- The `item.position && typeof item.position.x === 'number' &&
typeof item.position.y === 'number'` clause of the position-requiring
validation, as a total Boolean on decoded values. -/
def posCheckT (e : Json) : Bool :=
  jsTruthy (jsFieldT e "position") &&
    (match jsFieldT e "position" with
     | some pv => isNumV (jsFieldT pv "x") && isNumV (jsFieldT pv "y")
     | none => false)

/-- Total value of the per-element validation predicate (it agrees with
`validateItem` on every non-`null` element, see `validateItem_eq_ok`). -/
def validItemT (requirePos : Bool) (e : Json) : Bool :=
  nameDefCheck e && (!requirePos || posCheckT e)

/-- A field read that produced a non-empty string. -/
def isNonEmptyStrV : Option Json → Bool
  | some (Json.str s) => if s = "" then false else true
  | _ => false

/-- The data-model notion of a well-formed marker item: non-empty string
`name`, non-empty string `definition`, and a numeric position. -/
def goodItem (e : Json) : Bool :=
  isNonEmptyStrV (jsFieldT e "name") &&
    (isNonEmptyStrV (jsFieldT e "definition") && posCheckT e)

/-- The element keeps `name` and `definition`, when present, as strings
(the shape the data model prescribes for these fields). -/
def strTyped (e : Json) : Bool :=
  (match jsFieldT e "name" with
   | some (Json.str _) => true
   | none => true
   | some _ => false) &&
  (match jsFieldT e "definition" with
   | some (Json.str _) => true
   | none => true
   | some _ => false)

/-! ### Span-extraction lemmas -/

theorem notRB_true_iff {c : Char} : notRB c = true ↔ ¬ c = ']' := by
  unfold notRB; split <;> simp_all

theorem dropWhile_notRB_of_mem {l : List Char} (h : ']' ∈ l) :
    ∃ t, l.dropWhile notRB = ']' :: t := by
  induction l with
  | nil => cases h
  | cons c cs ih =>
    by_cases hc : c = ']'
    · subst hc
      exact ⟨cs, by simp [List.dropWhile_cons, notRB]⟩
    · have h' : ']' ∈ cs := by
        rcases List.mem_cons.mp h with h1 | h2
        · exact absurd h1.symm hc
        · exact h2
      obtain ⟨t, ht⟩ := ih h'
      refine ⟨t, ?_⟩
      rw [List.dropWhile_cons]
      simp [notRB, hc, ht]

theorem takeWhile_notRB_no_rb {l : List Char} {c : Char}
    (h : c ∈ l.takeWhile notRB) : ¬ c = ']' := by
  induction l with
  | nil => simp [List.takeWhile] at h
  | cons a as ih =>
    rw [List.takeWhile_cons] at h
    by_cases ha : notRB a = true
    · rw [if_pos ha] at h
      rcases List.mem_cons.mp h with h1 | h2
      · subst h1; exact notRB_true_iff.mp ha
      · exact ih h2
    · rw [if_neg ha] at h
      cases h

/-- Splitting a text that contains a `]` at its last `]`. -/
theorem takeToLastRB_decomp {cs : List Char} (h : ']' ∈ cs) :
    ∃ post, cs = takeToLastRB cs ++ post ∧ (∀ c ∈ post, ¬ c = ']') ∧
      (takeToLastRB cs).getLast? = some ']' := by
  have hrev : ']' ∈ cs.reverse := List.mem_reverse.mpr h
  obtain ⟨t, ht⟩ := dropWhile_notRB_of_mem hrev
  refine ⟨(cs.reverse.takeWhile notRB).reverse, ?_, ?_, ?_⟩
  · conv_lhs => rw [← cs.reverse_reverse,
      ← List.takeWhile_append_dropWhile (p := notRB) (l := cs.reverse)]
    rw [List.reverse_append]
    rfl
  · intro c hcmem
    exact takeWhile_notRB_no_rb (List.mem_reverse.mp hcmem)
  · rw [takeToLastRB, ht, List.getLast?_reverse]
    rfl

theorem getLast?_cons_some {a x : Char} {l : List Char}
    (h : l.getLast? = some x) : (a :: l).getLast? = some x := by
  cases l with
  | nil => simp at h
  | cons b t => rw [List.getLast?_cons_cons]; exact h

theorem mem_of_getLast?_rb : ∀ {l : List Char}, l.getLast? = some ']' → ']' ∈ l := by
  intro l
  induction l with
  | nil => intro h; simp at h
  | cons b t ih =>
    intro h
    cases t with
    | nil =>
      simp only [List.getLast?_singleton, Option.some.injEq] at h
      simp [h]
    | cons c u =>
      rw [List.getLast?_cons_cons] at h
      exact List.mem_cons_of_mem _ (ih h)

/-- Soundness half of the bracket regex: a text containing a `[` later
followed by a `]` matches, and the match runs from the first `[` of the
text to its last `]` (nothing before the match contains `[`, nothing
after it contains `]`). -/
theorem reMatch_span : ∀ s : List Char, hasPair s →
    ∃ pre m post, reMatch s = some m ∧ s = pre ++ m ++ post ∧
      (∀ c ∈ pre, ¬ c = '[') ∧ (∀ c ∈ post, ¬ c = ']') ∧
      m.head? = some '[' ∧ m.getLast? = some ']' := by
  intro s
  induction s with
  | nil =>
    rintro ⟨l, mid, r, hs⟩
    cases l <;> simp at hs
  | cons c s' ih =>
    rintro ⟨l, mid, r, hs⟩
    by_cases hc : c = '['
    · subst hc
      have hmem : ']' ∈ s' := by
        cases l with
        | nil =>
          simp only [List.nil_append, List.cons.injEq] at hs
          rw [hs.2]
          exact List.mem_append.mpr (Or.inr (List.mem_cons_self _ _))
        | cons x l' =>
          simp only [List.cons_append, List.cons.injEq] at hs
          rw [hs.2]
          refine List.mem_append.mpr (Or.inr ?_)
          exact List.mem_cons_of_mem _
            (List.mem_append.mpr (Or.inr (List.mem_cons_self _ _)))
      obtain ⟨post, hsplit, hpost, hlast⟩ := takeToLastRB_decomp hmem
      refine ⟨[], '[' :: takeToLastRB s', post, ?_, ?_, ?_, hpost, rfl,
        getLast?_cons_some hlast⟩
      · rw [reMatch, if_pos ⟨rfl, hmem⟩]
      · conv_lhs => rw [hsplit]
        rfl
      · intro c hcmem; cases hcmem
    · cases l with
      | nil =>
        simp only [List.nil_append, List.cons.injEq] at hs
        exact absurd hs.1 hc
      | cons x l' =>
        simp only [List.cons_append, List.cons.injEq] at hs
        obtain ⟨pre, m, post, h1, h2, h3, h4, h5, h6⟩ :=
          ih ⟨l', mid, r, hs.2⟩
        refine ⟨c :: pre, m, post, ?_, ?_, ?_, h4, h5, h6⟩
        · rw [reMatch]
          rw [if_neg (fun hand => hc hand.1)]
          exact h1
        · rw [List.cons_append, List.cons_append, h2]
        · intro d hd
          rcases List.mem_cons.mp hd with h | h
          · subst h; exact hc
          · exact h3 d h

/-- Completeness half: any successful match implies a bracket pair. -/
theorem hasPair_of_reMatch_some : ∀ {s : List Char} {m : List Char},
    reMatch s = some m → hasPair s := by
  intro s
  induction s with
  | nil => intro m h; simp [reMatch] at h
  | cons c s' ih =>
    intro m h
    rw [reMatch] at h
    by_cases hcond : c = '[' ∧ ']' ∈ s'
    · obtain ⟨a, b, hab⟩ := List.append_of_mem hcond.2
      exact ⟨[], a, b, by rw [hcond.1, hab]; rfl⟩
    · rw [if_neg hcond] at h
      obtain ⟨l, mid, r, hs⟩ := ih h
      exact ⟨c :: l, mid, r, by rw [hs]; rfl⟩

/-- A text with no bracket pair does not match. -/
theorem reMatch_none_of_not_hasPair {s : List Char} (h : ¬ hasPair s) :
    reMatch s = none := by
  cases hm : reMatch s with
  | none => rfl
  | some m => exact absurd (hasPair_of_reMatch_some hm) h

/-- Locating the match of a text made of bracket-free prose around a
bracket-delimited payload: the payload is matched exactly. -/
theorem reMatch_embedded : ∀ (pre mid post : List Char),
    (∀ c ∈ pre, ¬ c = '[') → (∀ c ∈ post, ¬ c = ']') →
    mid.getLast? = some ']' →
    reMatch (pre ++ '[' :: (mid ++ post)) = some ('[' :: mid) := by
  intro pre
  induction pre with
  | nil =>
    intro mid post _ hpost hlast
    have hmem : ']' ∈ mid ++ post :=
      List.mem_append.mpr (Or.inl (mem_of_getLast?_rb hlast))
    rw [List.nil_append, reMatch, if_pos ⟨rfl, hmem⟩]
    have : takeToLastRB (mid ++ post) = mid := by
      have hrev : (mid ++ post).reverse = post.reverse ++ mid.reverse := by
        rw [List.reverse_append]
      obtain ⟨t, ht⟩ : ∃ t, mid.reverse = ']' :: t := by
        have := hlast
        rw [← List.head?_reverse] at this
        cases hmr : mid.reverse with
        | nil => rw [hmr] at this; simp at this
        | cons a u =>
          rw [hmr] at this
          simp only [List.head?_cons, Option.some.injEq] at this
          exact ⟨u, by rw [this]⟩
      have hpostdrop : post.reverse.dropWhile notRB = [] := by
        rw [List.dropWhile_eq_nil_iff]
        intro c hcm
        exact notRB_true_iff.mpr (hpost c (List.mem_reverse.mp hcm))
      rw [takeToLastRB, hrev, List.dropWhile_append, hpostdrop]
      simp only [List.isEmpty_nil, if_true]
      rw [ht, List.dropWhile_cons]
      have hnrb : notRB ']' = false := by simp [notRB]
      rw [hnrb]
      simp only [Bool.false_eq_true, if_false]
      rw [← ht, List.reverse_reverse]
    rw [this]
  | cons c cs ih =>
    intro mid post hpre hpost hlast
    have hc : ¬ c = '[' := hpre c (List.mem_cons_self _ _)
    rw [List.cons_append, reMatch]
    rw [if_neg (fun hand => hc hand.1)]
    exact ih mid post (fun d hd => hpre d (List.mem_cons_of_mem _ hd)) hpost hlast

/-! ### Validation lemmas -/

theorem jsField_ok (v : Json) (k : String) (hv : nonNull v = true) :
    jsField v k = Except.ok (jsFieldT v k) := by
  cases v <;> simp_all [jsField, jsFieldT, nonNull]

theorem nonNull_of_jsTruthy {p : Json} (h : jsTruthy (some p) = true) :
    nonNull p = true := by
  cases p <;> simp_all [jsTruthy, nonNull]

/-- On a non-`null` element the effectful validation never throws and
computes the total predicate `validItemT`. -/
theorem validateItem_eq_ok (rp : Bool) (e : Json) (he : nonNull e = true) :
    validateItem rp e = Except.ok (validItemT rp e) := by
  cases e with
  | null => simp [nonNull] at he
  | bool b => cases rp <;> rfl
  | num m k => cases rp <;> rfl
  | str s => cases rp <;> rfl
  | arr xs => cases rp <;> rfl
  | obj fs =>
    cases h1 : jsTruthy (fs.lookup "name") with
    | false =>
      simp [validateItem, validItemT, nameDefCheck, jsField, jsFieldT, h1]
    | true =>
      cases h2 : jsTruthy (fs.lookup "definition") with
      | false =>
        simp [validateItem, validItemT, nameDefCheck, jsField, jsFieldT,
          h1, h2]
      | true =>
        cases rp with
        | false =>
          simp [validateItem, validItemT, nameDefCheck, posCheckT, jsField,
            jsFieldT, h1, h2]
        | true =>
          cases h3 : jsTruthy (fs.lookup "position") with
          | false =>
            simp [validateItem, validItemT, nameDefCheck, posCheckT,
              jsField, jsFieldT, h1, h2, h3]
          | true =>
            cases hp : fs.lookup "position" with
            | none => rw [hp] at h3; simp [jsTruthy] at h3
            | some pv =>
              have h3' : jsTruthy (some pv) = true := by rw [← hp, h3]
              cases pv with
              | null => simp [jsTruthy] at h3'
              | bool b =>
                simp [validateItem, validItemT, nameDefCheck, posCheckT,
                  jsField, jsFieldT, h1, h2, h3, h3', hp]
              | num m k =>
                simp [validateItem, validItemT, nameDefCheck, posCheckT,
                  jsField, jsFieldT, h1, h2, h3, h3', hp]
              | str s =>
                simp [validateItem, validItemT, nameDefCheck, posCheckT,
                  jsField, jsFieldT, h1, h2, h3, h3', hp]
              | arr xs =>
                simp [validateItem, validItemT, nameDefCheck, posCheckT,
                  jsField, jsFieldT, h1, h2, h3, h3', hp]
              | obj pfs =>
                cases h4 : isNumV (pfs.lookup "x") with
                | false =>
                  simp [validateItem, validItemT, nameDefCheck, posCheckT,
                    jsField, jsFieldT, h1, h2, h3, h3', hp, h4]
                | true =>
                  simp [validateItem, validItemT, nameDefCheck, posCheckT,
                    jsField, jsFieldT, h1, h2, h3, h3', hp, h4]

/-- On a list of non-`null` elements, `every` computes the conjunction of
the total predicate. -/
theorem validateAll_eq_ok (rp : Bool) (l : List Json)
    (h : ∀ e ∈ l, nonNull e = true) :
    validateAll rp l = Except.ok (l.all (validItemT rp)) := by
  induction l with
  | nil => rfl
  | cons e es ih =>
    rw [validateAll, validateItem_eq_ok rp e (h e (List.mem_cons_self _ _))]
    cases hb : validItemT rp e with
    | true =>
      rw [List.all_cons, hb, Bool.true_and]
      exact ih fun x hx => h x (List.mem_cons_of_mem _ hx)
    | false => rw [List.all_cons, hb, Bool.false_and]

/-- Whatever the elements are, an `every` call that returned `true`
returned `true` on each element. -/
theorem validateAll_true_forall {rp : Bool} : ∀ {l : List Json},
    validateAll rp l = Except.ok true →
    ∀ e ∈ l, validateItem rp e = Except.ok true := by
  intro l
  induction l with
  | nil => intro _ e he; cases he
  | cons a as ih =>
    intro h e he
    rw [validateAll] at h
    rcases List.mem_cons.mp he with rfl | hmem
    · cases ha : validateItem rp e with
      | error u => rw [ha] at h; cases h
      | ok b =>
        cases b with
        | true => rfl
        | false => rw [ha] at h; cases h
    · cases ha : validateItem rp a with
      | error u => rw [ha] at h; cases h
      | ok b =>
        cases b with
        | true => rw [ha] at h; exact ih h e hmem
        | false => rw [ha] at h; cases h

/-- An element whose validation returned `true` is not `null`. -/
theorem nonNull_of_validateItem_ok_true {rp : Bool} {e : Json}
    (h : validateItem rp e = Except.ok true) : nonNull e = true := by
  cases e with
  | null => rw [validateItem, jsField] at h; cases h
  | bool b => rfl
  | num m k => rfl
  | str s => rfl
  | arr xs => rfl
  | obj fs => rfl

/-- A per-element validation of the position-requiring variant that
returned `true` certifies the numeric-position clause. -/
theorem posCheckT_of_validateItem_true {e : Json}
    (h : validateItem true e = Except.ok true) : posCheckT e = true := by
  have he : nonNull e = true := nonNull_of_validateItem_ok_true h
  rw [validateItem_eq_ok true e he, validItemT] at h
  simp only [Except.ok.injEq, Bool.and_eq_true, Bool.not_true,
    Bool.false_or] at h
  exact h.2

/-- A per-element validation that returned `true` certifies the
`name`/`definition` truthiness clause. -/
theorem nameDefCheck_of_validateItem_true {rp : Bool} {e : Json}
    (h : validateItem rp e = Except.ok true) : nameDefCheck e = true := by
  have he : nonNull e = true := nonNull_of_validateItem_ok_true h
  rw [validateItem_eq_ok rp e he, validItemT] at h
  simp only [Except.ok.injEq, Bool.and_eq_true] at h
  exact h.1

/-- A truthy field read that is string-typed is a non-empty string. -/
theorem isNonEmptyStrV_of_truthy {v : Option Json}
    (hty : (match v with
            | some (Json.str _) => true
            | none => true
            | some _ => false) = true)
    (ht : jsTruthy v = true) : isNonEmptyStrV v = true := by
  match v with
  | none => simp [jsTruthy] at ht
  | some Json.null => simp [jsTruthy] at ht
  | some (Json.bool b) => simp at hty
  | some (Json.num m k) => simp at hty
  | some (Json.arr xs) => simp at hty
  | some (Json.obj fs) => simp at hty
  | some (Json.str s) =>
    simp only [jsTruthy] at ht
    simp only [isNonEmptyStrV]
    rw [if_neg (by simpa using ht)]

/-! ### Claims about the vision-response parser -/

/-- C1: for every decoded array of non-`null` elements, if any element
lacks a truthy (in particular, non-empty) `name` or `definition`, the
parser's output item list is the empty list — the valid elements are not
kept — and the outcome carries the schema-invalid failure kind. -/
theorem schema_invalid_rejects_all (elems : List Json)
    (hnn : elems.all nonNull = true)
    (hbad : elems.any (fun e => ! nameDefCheck e) = true) :
    processParsed false (Json.arr elems) =
      ⟨[], some ParseKind.schemaInvalid, none⟩ := by
  have hnn' : ∀ e ∈ elems, nonNull e = true := by simpa using hnn
  have hallv := validateAll_eq_ok false elems hnn'
  have hfalse : elems.all (validItemT false) = false := by
    obtain ⟨e, he, hbe⟩ := List.any_eq_true.mp hbad
    have hvf : validItemT false e = false := by
      have hnd : nameDefCheck e = false := by simpa using hbe
      simp [validItemT, hnd]
    cases hall : elems.all (validItemT false) with
    | false => rfl
    | true =>
      have := List.all_eq_true.mp hall e he
      rw [hvf] at this
      cases this
  simp [processParsed, hallv, hfalse]

/-- Concrete instantiation of `schema_invalid_rejects_all`: three decoded
elements, the middle one missing `definition`; the two valid elements are
dropped, and the schema-invalid kind is flagged. -/
theorem schema_invalid_rejects_all_witness :
    processParsed false (Json.arr
      [Json.obj [("name", Json.str "Osso Buco"),
                 ("definition", Json.str "Braised veal shank")],
       Json.obj [("name", Json.str "Nduja")],
       Json.obj [("name", Json.str "Uni"),
                 ("definition", Json.str "Sea urchin roe")]]) =
      ⟨[], some ParseKind.schemaInvalid, none⟩ :=
  schema_invalid_rejects_all _ rfl rfl

/-- C2: the matched span runs exactly from the first `[` of the response
text to its last `]` (first conjunct), and a response made of prose
without `[` before, and prose without `]` after, one schema-valid JSON
array parses to exactly that array's contents with no failure (second
conjunct). -/
theorem span_extraction_correct :
    (∀ s : List Char, hasPair s →
      ∃ pre m post, reMatch s = some m ∧ s = pre ++ m ++ post ∧
        (∀ c ∈ pre, ¬ c = '[') ∧ (∀ c ∈ post, ¬ c = ']') ∧
        m.head? = some '[' ∧ m.getLast? = some ']') ∧
    (∀ (rp : Bool) (pre mid post : List Char) (elems : List Json),
      (∀ c ∈ pre, ¬ c = '[') → (∀ c ∈ post, ¬ c = ']') →
      mid.getLast? = some ']' →
      jsonParse ('[' :: mid) = some (Json.arr elems) →
      validateAll rp elems = Except.ok true →
      parseResponse rp (pre ++ '[' :: (mid ++ post)) = ⟨elems, none, none⟩) := by
  refine ⟨reMatch_span, ?_⟩
  intro rp pre mid post elems hpre hpost hlast hjson hvalid
  simp [parseResponse, reMatch_embedded pre mid post hpre hpost hlast,
    hjson, processParsed, hvalid]

/-- Concrete instantiation of `span_extraction_correct`: prose before and
after a one-element array; the output is exactly that element. -/
theorem span_extraction_correct_witness :
    parseResponse false ("Here you go: ".toList ++ '[' ::
      ("\x7b\"name\":\"Osso Buco\",\"definition\":\"Braised veal shank\"\x7d]".toList ++
        " Hope that helps!".toList)) =
      ⟨[Json.obj [("name", Json.str "Osso Buco"),
                  ("definition", Json.str "Braised veal shank")]],
        none, none⟩ :=
  span_extraction_correct.2 false "Here you go: ".toList
    "\x7b\"name\":\"Osso Buco\",\"definition\":\"Braised veal shank\"\x7d]".toList
    " Hope that helps!".toList _ (by decide) (by decide) (by decide) rfl rfl

/-- C6: a response with no bracket pair yields zero items and no failure
signal; a matched span that fails to decode yields zero items plus the
malformed-JSON failure (and the user-facing error message); and the two
zero-item outcomes differ in their failure flag. -/
theorem no_span_vs_malformed_distinguished :
    (∀ (rp : Bool) (s : List Char), ¬ hasPair s →
      parseResponse rp s = ⟨[], none, none⟩) ∧
    (∀ (rp : Bool) (s m : List Char), reMatch s = some m →
      jsonParse m = none →
      parseResponse rp s =
        ⟨[], some ParseKind.malformedJson, some parseFailMsg⟩) ∧
    ParseOutcome.failure ⟨[], none, none⟩ ≠
      ParseOutcome.failure ⟨[], some ParseKind.malformedJson, some parseFailMsg⟩ := by
  refine ⟨?_, ?_, ?_⟩
  · intro rp s h
    simp [parseResponse, reMatch_none_of_not_hasPair h]
  · intro rp s m h1 h2
    simp [parseResponse, h1, h2]
  · simp

/-- Concrete instantiation of `no_span_vs_malformed_distinguished`: a
bracket-free response and a response whose span is not JSON. -/
theorem no_span_vs_malformed_distinguished_witness :
    parseResponse false "The menu shows no notable dishes.".toList =
      ⟨[], none, none⟩ ∧
    parseResponse false "Sure: [not json] end".toList =
      ⟨[], some ParseKind.malformedJson, some parseFailMsg⟩ :=
  ⟨no_span_vs_malformed_distinguished.1 false _ (fun h => by
      obtain ⟨pre, m, post, hm, _⟩ := reMatch_span _ h
      rw [show reMatch "The menu shows no notable dishes.".toList = none
        from rfl] at hm
      exact Option.noConfusion hm),
   no_span_vs_malformed_distinguished.2.1 false _ "[not json]".toList rfl rfl⟩

/-- C8: in the position-requiring variant, an array with any element
failing the numeric-position clause is rejected wholesale (first
conjunct), and — for elements typing `name` and `definition` as strings,
as the data model prescribes — a list is accepted only when every element
has a non-empty `name`, a non-empty `definition` and a numeric position
(second conjunct). -/
theorem position_variant_fail_closed :
    (∀ elems : List Json,
      elems.any (fun e => ! posCheckT e) = true →
      (processParsed true (Json.arr elems)).items = []) ∧
    (∀ elems : List Json, elems.all strTyped = true →
      processParsed true (Json.arr elems) = ⟨elems, none, none⟩ →
      ∀ e ∈ elems, goodItem e = true) := by
  constructor
  · intro elems hbad
    cases hall : validateAll true elems with
    | error u => simp [processParsed, hall]
    | ok b =>
      cases b with
      | false => simp [processParsed, hall]
      | true =>
        obtain ⟨e, he, hbe⟩ := List.any_eq_true.mp hbad
        have hvi := validateAll_true_forall hall e he
        have hpc := posCheckT_of_validateItem_true hvi
        rw [hpc] at hbe
        cases hbe
  · intro elems hst hacc e he
    cases hall : validateAll true elems with
    | error u => simp [processParsed, hall] at hacc
    | ok b =>
      cases b with
      | false => simp [processParsed, hall] at hacc
      | true =>
        have hvi := validateAll_true_forall hall e he
        have hpc := posCheckT_of_validateItem_true hvi
        have hnd := nameDefCheck_of_validateItem_true hvi
        have hst_e : strTyped e = true := List.all_eq_true.mp hst e he
        rw [strTyped, Bool.and_eq_true] at hst_e
        rw [nameDefCheck, Bool.and_eq_true] at hnd
        rw [goodItem, isNonEmptyStrV_of_truthy hst_e.1 hnd.1, Bool.true_and,
          isNonEmptyStrV_of_truthy hst_e.2 hnd.2, Bool.true_and, hpc]

/-- Concrete instantiation of `position_variant_fail_closed`: an element
without `position` empties the output; a fully-specified marker element
is a well-formed item. -/
theorem position_variant_fail_closed_witness :
    (processParsed true (Json.arr
      [Json.obj [("name", Json.str "a"),
                 ("definition", Json.str "b")]])).items = [] ∧
    goodItem (Json.obj [("name", Json.str "a"), ("definition", Json.str "b"),
      ("position", Json.obj [("x", Json.num 10 0), ("y", Json.num 20 0)])]) =
      true :=
  ⟨position_variant_fail_closed.1 _ rfl,
   position_variant_fail_closed.2
     [Json.obj [("name", Json.str "a"), ("definition", Json.str "b"),
       ("position", Json.obj [("x", Json.num 10 0), ("y", Json.num 20 0)])]]
     rfl rfl _ (List.mem_singleton.mpr rfl)⟩

/-! ### The enrichment resolver (`getWikipediaImage` and the map over dishes)

The two Wikipedia endpoints are reached through `fetch`; a call can
resolve with `response.ok` true, resolve non-ok, or throw (network error,
or a later `.json()` failure). The resolver's observable behaviour is the
returned URL plus the sequence of requests it issued, which we collect. -/

/-- Outcome of one `fetch` (plus `.json()` decode) as the code branches
on it: usable payload, non-ok response, or a thrown error. -/
inductive FetchResult (α : Type) : Type
  | ok : α → FetchResult α
  | notOk : FetchResult α
  | threw : FetchResult α
deriving DecidableEq

/-- The external collaborators: the search endpoint maps a term to its
candidate titles (in index order), the summary endpoint maps a title to
an optional thumbnail URL (`some none` would be an ok response without a
thumbnail, encoded here as `ok none`). -/
structure WikiEnv : Type where
  search : String → FetchResult (List String)
  summary : String → FetchResult (Option String)

/-- A request issued by the resolver, in issue order. -/
inductive Query : Type
  | searchQ : String → Query
  | summaryQ : String → Query
deriving DecidableEq

/-- The `dishName.replace(/[()]/g, '')` call: remove every parenthesis
character. -/
def stripParens (s : String) : String :=
  String.mk (s.data.filter (fun c => if c = '(' ∨ c = ')' then false else true))

/-- Whitespace characters removed by the (modelled) JS `trim()` builtin. -/
def isWsChar (c : Char) : Bool :=
  c = ' ' ∨ c = '\t' ∨ c = '\n' ∨ c = '\r'

/-- Model of the JS `String.prototype.trim` builtin: drop leading and
trailing whitespace. -/
def jsTrim (s : String) : String :=
  String.mk (((s.data.dropWhile isWsChar).reverse.dropWhile isWsChar).reverse)

/-- The ordered term list built at the top of `getWikipediaImage`. -/
def searchTerms (dishName : String) : List String :=
  [dishName, dishName ++ " food", dishName ++ " dish",
    jsTrim (stripParens dishName)]

/-- Candidate pass of `getWikipediaImage` (the inner `for` over
`searchData.query.search`): candidates' summaries are fetched in order; a
summary throw escapes to the per-term `catch` (`Except.error`), a non-ok
or thumbnail-less summary moves to the next candidate, a thumbnail ends
the whole search. -/
def summaryLoop (env : WikiEnv) : List String → Except Unit (Option String) × List Query
  | [] => (Except.ok none, [])
  | t :: ts =>
    match env.summary t with
    | FetchResult.threw => (Except.error (), [Query.summaryQ t])
    | FetchResult.notOk =>
      let p := summaryLoop env ts
      (p.1, Query.summaryQ t :: p.2)
    | FetchResult.ok none =>
      let p := summaryLoop env ts
      (p.1, Query.summaryQ t :: p.2)
    | FetchResult.ok (some u) => (Except.ok (some u), [Query.summaryQ t])

/-- Term pass of `getWikipediaImage` (the outer `for` over the term list,
each iteration inside `try`/`catch`): a search that throws, is non-ok or
has zero candidates falls through to the next term, as does a term whose
candidate pass threw or ran out of candidates; a found thumbnail returns
immediately. -/
def termLoop (env : WikiEnv) : List String → Option String × List Query
  | [] => (none, [])
  | t :: ts =>
    match env.search t with
    | FetchResult.threw =>
      let q := termLoop env ts
      (q.1, Query.searchQ t :: q.2)
    | FetchResult.notOk =>
      let q := termLoop env ts
      (q.1, Query.searchQ t :: q.2)
    | FetchResult.ok [] =>
      let q := termLoop env ts
      (q.1, Query.searchQ t :: q.2)
    | FetchResult.ok (c :: cs) =>
      let p := summaryLoop env (c :: cs)
      match p.1 with
      | Except.ok (some u) => (some u, Query.searchQ t :: p.2)
      | Except.ok none =>
        let q := termLoop env ts
        (q.1, Query.searchQ t :: (p.2 ++ q.2))
      | Except.error _ =>
        let q := termLoop env ts
        (q.1, Query.searchQ t :: (p.2 ++ q.2))

/-- `getWikipediaImage(dishName)`: the cascading lookup over the four
search terms, together with the queries it issued. -/
def getWikipediaImage (env : WikiEnv) (dishName : String) :
    Option String × List Query :=
  termLoop env (searchTerms dishName)

/-- Statement of the specification's candidate rule, written from the
claim's words for comparison with the code: candidates of a term are
tried in index-returned order and the first candidate whose summary
yields a thumbnail URL is adopted; any candidate that yields none is
passed over. -/
def specCandidates (env : WikiEnv) : List String → Option String × List Query
  | [] => (none, [])
  | t :: ts =>
    match env.summary t with
    | FetchResult.ok (some u) => (some u, [Query.summaryQ t])
    | _ =>
      let p := specCandidates env ts
      (p.1, Query.summaryQ t :: p.2)

/-- Statement of the specification's cascade, written from the claim's
words: terms in order, a failed or empty search moves to the next term,
a term whose candidates are exhausted moves to the next term, the first
adopted thumbnail ends the search. -/
def specCascade (env : WikiEnv) : List String → Option String × List Query
  | [] => (none, [])
  | t :: ts =>
    match env.search t with
    | FetchResult.ok (c :: cs) =>
      let p := specCandidates env (c :: cs)
      match p.1 with
      | some u => (some u, Query.searchQ t :: p.2)
      | none =>
        let q := specCascade env ts
        (q.1, Query.searchQ t :: (p.2 ++ q.2))
    | _ =>
      let q := specCascade env ts
      (q.1, Query.searchQ t :: q.2)

/-- The per-dish body of the enrichment `map`: evaluate
`getWikipediaImage(dish.name)` under the per-dish `try`/`catch`. Reading
`name` on `null` throws (caught: no image); a missing or non-string
`name` makes the term-list construction (`dishName.replace`) throw before
any query is issued (caught: no image). -/
def getImageForDish (env : WikiEnv) (d : Json) : Option String :=
  match d with
  | Json.obj fs =>
    match fs.lookup "name" with
    | some (Json.str s) => (getWikipediaImage env s).1
    | _ => none
  | _ => none

/-- The `{ ...dish, imageUrl }` spread: the `imageUrl` key is updated in
place or appended. (A non-object is unreachable here, since a successful
lookup required a string `name` field.) -/
def addImageUrl (d : Json) (url : String) : Json :=
  match d with
  | Json.obj fs => Json.obj (setKey fs "imageUrl" (Json.str url))
  | other => other

/-- The enrichment loop `Promise.all(dishes.map(...))`: per item, attach
`imageUrl` on success and return the item unchanged otherwise; item order
is preserved and the aggregate always settles. -/
def enrichDishes (env : WikiEnv) (dishes : List Json) : List Json :=
  dishes.map (fun d =>
    match getImageForDish env d with
    | some url => addImageUrl d url
    | none => d)

/-! ### Resolver lemmas and claims -/

/-- When no summary call throws, the code's candidate pass never reaches
its `catch` and agrees, result and trace, with the specification's
candidate rule. -/
theorem summaryLoop_eq_spec (env : WikiEnv)
    (hns : ∀ t, ¬ env.summary t = FetchResult.threw) :
    ∀ l : List String, summaryLoop env l =
      (Except.ok (specCandidates env l).1, (specCandidates env l).2) := by
  intro l
  induction l with
  | nil => rfl
  | cons t ts ih =>
    cases hsum : env.summary t with
    | threw => exact absurd hsum (hns t)
    | notOk => simp [summaryLoop, specCandidates, hsum, ih]
    | ok o =>
      cases o with
      | none => simp [summaryLoop, specCandidates, hsum, ih]
      | some u => simp [summaryLoop, specCandidates, hsum]

/-- When no summary call throws, the code's term pass agrees, result and
trace, with the specification's cascade. -/
theorem termLoop_eq_spec (env : WikiEnv)
    (hns : ∀ t, ¬ env.summary t = FetchResult.threw) :
    ∀ ts : List String, termLoop env ts = specCascade env ts := by
  intro ts
  induction ts with
  | nil => rfl
  | cons t ts ih =>
    cases hsearch : env.search t with
    | threw => simp [termLoop, specCascade, hsearch, ih]
    | notOk => simp [termLoop, specCascade, hsearch, ih]
    | ok r =>
      cases r with
      | nil => simp [termLoop, specCascade, hsearch, ih]
      | cons c cs =>
        have hsl := summaryLoop_eq_spec env hns (c :: cs)
        cases ho : (specCandidates env (c :: cs)).1 with
        | none => simp [termLoop, specCascade, hsearch, hsl, ho, ih]
        | some u => simp [termLoop, specCascade, hsearch, hsl, ho]

/-- C3: the per-item lookup builds exactly the four search terms of the
claim in that order, and — whenever no summary call throws, the case the
claim's rules cover — the whole cascading lookup (term order, candidate
order, first-success-wins, including its issued-query trace) coincides
with the cascade as the specification words it. -/
theorem resolver_cascade_order (env : WikiEnv) (dishName : String)
    (hns : ∀ t, ¬ env.summary t = FetchResult.threw) :
    searchTerms dishName = [dishName, dishName ++ " food",
      dishName ++ " dish", jsTrim (stripParens dishName)] ∧
    getWikipediaImage env dishName = specCascade env (searchTerms dishName) :=
  ⟨rfl, termLoop_eq_spec env hns (searchTerms dishName)⟩

/-- A demonstration search index: the raw dish name has no candidates,
the qualified name has two. -/
def demoSearch : String → FetchResult (List String) := fun t =>
  if t = "Arancini" then FetchResult.ok []
  else if t = "Arancini food" then FetchResult.ok ["Arancini", "Rice ball"]
  else FetchResult.notOk

/-- A demonstration summary endpoint: only the first candidate of the
second term carries a thumbnail. -/
def demoSummary : String → FetchResult (Option String) := fun c =>
  if c = "Arancini" then FetchResult.ok (some "https://img.example/arancini.jpg")
  else FetchResult.notOk

/-- Demonstration environment for the cascade. -/
def demoEnv : WikiEnv := ⟨demoSearch, demoSummary⟩

/-- Concrete instantiation of `resolver_cascade_order`: the first term
returns zero candidates, the second term's first candidate is adopted. -/
theorem resolver_cascade_order_witness :
    getWikipediaImage demoEnv "Arancini" =
      specCascade demoEnv (searchTerms "Arancini") ∧
    (getWikipediaImage demoEnv "Arancini").1 =
      some "https://img.example/arancini.jpg" :=
  ⟨(resolver_cascade_order demoEnv "Arancini"
      (fun t => by
        show ¬ demoSummary t = FetchResult.threw
        unfold demoSummary
        split
        · exact fun h => FetchResult.noConfusion h
        · exact fun h => FetchResult.noConfusion h)).2,
    rfl⟩

/-- Searching every term of a list with a throwing index finds nothing. -/
theorem termLoop_none_of_all_threw (env : WikiEnv) :
    ∀ ts : List String, (∀ t ∈ ts, env.search t = FetchResult.threw) →
      (termLoop env ts).1 = none := by
  intro ts
  induction ts with
  | nil => intro _; rfl
  | cons t ts ih =>
    intro h
    have ht : env.search t = FetchResult.threw := h t (List.mem_cons_self _ _)
    have ihs := ih fun x hx => h x (List.mem_cons_of_mem _ hx)
    simp [termLoop, ht, ihs]

/-- C4: a per-item lookup chain that throws at every step is caught at
the item's boundary: the aggregate enrichment still produces a list of
the same length, the failing item is returned unchanged at its position
(in particular with no `imageUrl` added), and every input item appears at
its position in the output, either unchanged or with `imageUrl`
attached. -/
theorem enrichment_isolates_item_failure (env : WikiEnv)
    (dishes : List Json) (i : Nat) (d : Json)
    (hd : dishes[i]? = some d)
    (hthrow : ∀ s, jsFieldT d "name" = some (Json.str s) →
      ∀ t ∈ searchTerms s, env.search t = FetchResult.threw) :
    (enrichDishes env dishes).length = dishes.length ∧
    (enrichDishes env dishes)[i]? = some d ∧
    ∀ j, j < dishes.length → ∃ dj, dishes[j]? = some dj ∧
      ((enrichDishes env dishes)[j]? = some dj ∨
        ∃ url, (enrichDishes env dishes)[j]? = some (addImageUrl dj url)) := by
  have hnone : getImageForDish env d = none := by
    cases d with
    | obj fs =>
      rw [getImageForDish]
      cases hlk : fs.lookup "name" with
      | none => rfl
      | some v =>
        cases v with
        | str s =>
          have := termLoop_none_of_all_threw env (searchTerms s)
            (hthrow s (by rw [jsFieldT, hlk]))
          simpa [getWikipediaImage] using this
        | null => rfl
        | bool b => rfl
        | num m k => rfl
        | arr xs => rfl
        | obj gs => rfl
    | null => rfl
    | bool b => rfl
    | num m k => rfl
    | str s => rfl
    | arr xs => rfl
  refine ⟨by simp [enrichDishes], ?_, ?_⟩
  · rw [enrichDishes, List.getElem?_map, hd]
    simp [hnone]
  · intro j hj
    have hdj : dishes[j]? = some dishes[j] := List.getElem?_eq_getElem hj
    refine ⟨dishes[j], hdj, ?_⟩
    rw [enrichDishes, List.getElem?_map, hdj]
    cases hgi : getImageForDish env dishes[j] with
    | none => exact Or.inl (by simp [hgi])
    | some url => exact Or.inr ⟨url, by simp [hgi]⟩

/-- A search index whose every request throws, paired with three dishes
of which only the middle one maps to the throwing terms. -/
def mixedSearch : String → FetchResult (List String) := fun t =>
  if t = "BadDish" ∨ t = "BadDish food" ∨ t = "BadDish dish"
  then FetchResult.threw
  else FetchResult.ok ["Page"]

/-- Environment whose summary endpoint always succeeds. -/
def mixedEnv : WikiEnv :=
  ⟨mixedSearch, fun _ => FetchResult.ok (some "https://img.example/p.jpg")⟩

/-- Demonstration dish list: the middle dish's search terms all throw. -/
def demoDishes : List Json :=
  [Json.obj [("name", Json.str "Cannoli"), ("definition", Json.str "a")],
   Json.obj [("name", Json.str "BadDish"), ("definition", Json.str "b")],
   Json.obj [("name", Json.str "Arancino"), ("definition", Json.str "c")]]

/-- Concrete instantiation of `enrichment_isolates_item_failure`: three
items, the middle item's lookups all throw; all three items remain, the
middle one untouched. -/
theorem enrichment_isolates_item_failure_witness :
    (enrichDishes mixedEnv demoDishes).length = demoDishes.length ∧
    (enrichDishes mixedEnv demoDishes)[1]? =
      some (Json.obj [("name", Json.str "BadDish"),
        ("definition", Json.str "b")]) := by
  have h := enrichment_isolates_item_failure mixedEnv demoDishes 1
    (Json.obj [("name", Json.str "BadDish"), ("definition", Json.str "b")])
    rfl
    (by
      intro s hs
      rw [show jsFieldT (Json.obj [("name", Json.str "BadDish"),
        ("definition", Json.str "b")]) "name" = some (Json.str "BadDish")
        from rfl] at hs
      injection hs with h1
      injection h1 with h2
      subst h2
      intro t ht
      simp only [searchTerms, List.mem_cons, List.not_mem_nil, or_false] at ht
      rcases ht with rfl | rfl | rfl | rfl <;> decide)
  exact ⟨h.1, h.2.1⟩

/-- C5: enrichment against an image index that always fails (non-ok,
throwing, or zero-candidate searches) is the identity on the item list:
the same items, in the same order, with every field — and the absence of
`imageUrl` — untouched. -/
theorem enrichment_identity_on_failing_index (env : WikiEnv)
    (hfail : ∀ t r, env.search t = FetchResult.ok r → r = [])
    (dishes : List Json) :
    enrichDishes env dishes = dishes := by
  have hterm : ∀ ts : List String, (termLoop env ts).1 = none := by
    intro ts
    induction ts with
    | nil => rfl
    | cons t ts ih =>
      cases hs : env.search t with
      | threw => simp [termLoop, hs, ih]
      | notOk => simp [termLoop, hs, ih]
      | ok r =>
        have : r = [] := hfail t r hs
        subst this
        simp [termLoop, hs, ih]
  have hnone : ∀ d, getImageForDish env d = none := by
    intro d
    cases d with
    | obj fs =>
      rw [getImageForDish]
      cases hlk : fs.lookup "name" with
      | none => rfl
      | some v =>
        cases v with
        | str s => simpa [getWikipediaImage] using hterm (searchTerms s)
        | null => rfl
        | bool b => rfl
        | num m k => rfl
        | arr xs => rfl
        | obj gs => rfl
    | null => rfl
    | bool b => rfl
    | num m k => rfl
    | str s => rfl
    | arr xs => rfl
  rw [enrichDishes]
  have : ∀ d ∈ dishes,
      (match getImageForDish env d with
       | some url => addImageUrl d url
       | none => d) = d := by
    intro d _
    rw [hnone d]
  calc dishes.map _ = dishes.map id := List.map_congr_left this
    _ = dishes := List.map_id _

/-- Concrete instantiation of `enrichment_identity_on_failing_index`:
two items against an index that always responds non-ok. -/
theorem enrichment_identity_on_failing_index_witness :
    enrichDishes ⟨fun _ => FetchResult.notOk, fun _ => FetchResult.notOk⟩
      [Json.obj [("name", Json.str "Caponata"), ("definition", Json.str "x")],
       Json.obj [("name", Json.str "Busiate"), ("definition", Json.str "y")]] =
      [Json.obj [("name", Json.str "Caponata"), ("definition", Json.str "x")],
       Json.obj [("name", Json.str "Busiate"), ("definition", Json.str "y")]] :=
  enrichment_identity_on_failing_index _
    (fun _ _ h => FetchResult.noConfusion h) _

/-! ### The request gate of the analysis handler -/

/-- Outcome of the gate at the top of the serverless `handler`, before
any upstream call: an early JSON error response (status and error
message, no network activity), or fall-through to the upstream request. -/
inductive GateOutcome : Type
  | reject : Nat → String → GateOutcome
  | proceed : GateOutcome
deriving DecidableEq

/-- The 405 response body. -/
def msgMethodNotAllowed : String := "Method not allowed"

/-- The missing-fields 400 response body. -/
def msgMissingFields : String := "Missing required fields: image and mediaType"

/-- The invalid-media-type 400 response body. -/
def msgInvalidMediaType : String :=
  "Invalid media type. Must be JPEG, PNG, GIF, or WebP"

/-- The `validTypes` whitelist of the handler. -/
def validTypes : List String :=
  ["image/jpeg", "image/png", "image/gif", "image/webp"]

/-- JS falsiness of a destructured request field at its interface type (a
string when present): absent (`undefined`) and the empty string are
falsy. -/
def strFalsy : Option String → Bool
  | none => true
  | some s => if s = "" then true else false

/-- The media type is present and whitelisted
(`validTypes.includes(mediaType)`). -/
def validMediaType : Option String → Bool
  | some t => validTypes.contains t
  | none => false

/-- The top of the serverless `handler`: the method check
(`req.method !== 'POST'` → 405), the missing-fields check
(`!image || !mediaType` → 400), and the media-type whitelist check
(→ 400), each responding without any network call; otherwise the handler
proceeds to the upstream request. -/
def handlerGate (method : String) (image mediaType : Option String) :
    GateOutcome :=
  if ¬ method = "POST" then GateOutcome.reject 405 msgMethodNotAllowed
  else if strFalsy image ∨ strFalsy mediaType then
    GateOutcome.reject 400 msgMissingFields
  else if ¬ validMediaType mediaType then
    GateOutcome.reject 400 msgInvalidMediaType
  else GateOutcome.proceed

/-- C7: a POST analyze request draws a 400 response — necessarily before
any network call, since a rejection precludes the upstream request — if
and only if the image field is missing (absent or empty), the mediaType
field is missing, or the mediaType is not whitelisted; and the two
rejection reasons carry their own, distinct response messages. -/
theorem analyze_input_validation_iff (image mediaType : Option String) :
    ((∃ m, handlerGate "POST" image mediaType = GateOutcome.reject 400 m) ↔
      (strFalsy image = true ∨ strFalsy mediaType = true ∨
        validMediaType mediaType = false)) ∧
    (strFalsy image = true ∨ strFalsy mediaType = true →
      handlerGate "POST" image mediaType =
        GateOutcome.reject 400 msgMissingFields) ∧
    (strFalsy image = false → strFalsy mediaType = false →
      validMediaType mediaType = false →
      handlerGate "POST" image mediaType =
        GateOutcome.reject 400 msgInvalidMediaType) ∧
    ¬ msgMissingFields = msgInvalidMediaType := by
  refine ⟨?_, ?_, ?_, by decide⟩
  · cases hi : strFalsy image <;> cases hm : strFalsy mediaType <;>
      cases hv : validMediaType mediaType <;>
      simp [handlerGate, hi, hm, hv]
  · intro hor
    have : (strFalsy image ∨ strFalsy mediaType) = True := by
      rcases hor with hh | hh <;> simp [hh]
    simp [handlerGate, this]
  · intro hi hm hv
    simp [handlerGate, hi, hm, hv]

/-- Concrete instantiation of `analyze_input_validation_iff`: a request
with no fields at all, and a request with an unsupported media type; the
two are answered with the two distinct 400 messages. -/
theorem analyze_input_validation_iff_witness :
    handlerGate "POST" none none = GateOutcome.reject 400 msgMissingFields ∧
    handlerGate "POST" (some "QUJD") (some "text/html") =
      GateOutcome.reject 400 msgInvalidMediaType :=
  ⟨(analyze_input_validation_iff none none).2.1 (Or.inl rfl),
   (analyze_input_validation_iff (some "QUJD") (some "text/html")).2.2.1
     rfl rfl rfl⟩

/-- C10: a request whose method is not POST is answered 405 with an error
body before any validation or network call: the response is the same
whatever the payload fields hold. -/
theorem non_post_method_rejected (method : String)
    (image mediaType : Option String) (h : ¬ method = "POST") :
    handlerGate method image mediaType =
      GateOutcome.reject 405 msgMethodNotAllowed := by
  rw [handlerGate, if_pos h]

/-- Concrete instantiation of `non_post_method_rejected`: a GET request
with a valid payload is still answered 405. -/
theorem non_post_method_rejected_witness :
    handlerGate "GET" (some "QUJD") (some "image/png") =
      GateOutcome.reject 405 msgMethodNotAllowed :=
  non_post_method_rejected "GET" (some "QUJD") (some "image/png") (by decide)

/-! ### The image preprocessor

Modelled from the spec: the client-side image preprocessor — decode to
`(w, h)`, downscale uniformly (rounding down) when `max w h` exceeds the
dimension cap `D`, re-encode starting at quality `q0` and step the
quality down by `step` while the encoded size exceeds the byte ceiling
`B` and the quality is above the floor `qmin`, then return the final
encoding with its parameters — is specified in §4.1 but its code is not
among the source files; the definitions below follow the specification's
algorithm steps 1-5. The encoder is abstracted as a size estimate `enc`
from dimensions and quality. -/

/-- Modelled from the spec: step 2, uniform downscale to the dimension
cap, rounding down to integer pixels; images within the cap are left
as they are. -/
def scaleDims (w h D : Nat) : Nat × Nat :=
  let m := max w h
  if D < m then (w * D / m, h * D / m) else (w, h)

/-- Modelled from the spec: steps 3-5, the re-encode loop. Returns the
final quality, the final size estimate, and the number of encode
attempts performed. One attempt is always made; while the size exceeds
`B` and the quality is above `qmin` (the loop also stops for a
non-positive `step`, on which the specified loop would not terminate),
the quality drops by `step` and the image is re-encoded. -/
def encLoop (enc : Rat → Nat) (B : Nat) (qmin step : Rat) (q : Rat) :
    Rat × Nat × Nat :=
  let s := enc q
  if h : B < s ∧ qmin < q ∧ 0 < step then
    let p := encLoop enc B qmin step (q - step)
    (p.1, p.2.1, p.2.2 + 1)
  else (q, s, 1)
termination_by (⌈(q - qmin) / step⌉).toNat
decreasing_by
  have hstep : step ≠ 0 := ne_of_gt h.2.2
  have hkey : (q - step - qmin) / step = (q - qmin) / step - 1 := by
    field_simp
    ring
  have hpos : 0 < ⌈(q - qmin) / step⌉ :=
    Int.ceil_pos.mpr (div_pos (sub_pos.mpr h.2.1) h.2.2)
  rw [hkey, Int.ceil_sub_one]
  omega

/-- Modelled from the spec: the whole preprocessor, returning the output
dimensions and the encode loop's result (final quality, size estimate,
attempt count). -/
def preprocess (enc : Nat → Nat → Rat → Nat) (w h D B : Nat)
    (q0 qmin step : Rat) : (Nat × Nat) × Rat × Nat × Nat :=
  let d := scaleDims w h D
  (d, encLoop (enc d.1 d.2) B qmin step q0)

/-- The attempt counter of the encode loop is bounded by the quality
span over the step size. -/
theorem encLoop_attempts (enc : Rat → Nat) (B : Nat) (qmin step : Rat) :
    ∀ q : Rat, (encLoop enc B qmin step q).2.2 ≤
      (⌈(q - qmin) / step⌉).toNat + 1 := by
  have H : ∀ (n : Nat) (q : Rat), (⌈(q - qmin) / step⌉).toNat ≤ n →
      (encLoop enc B qmin step q).2.2 ≤ (⌈(q - qmin) / step⌉).toNat + 1 := by
    intro n
    induction n with
    | zero =>
      intro q hq
      rw [encLoop]
      split
      · next h =>
        exfalso
        have hpos : 0 < ⌈(q - qmin) / step⌉ :=
          Int.ceil_pos.mpr (div_pos (sub_pos.mpr h.2.1) h.2.2)
        omega
      · dsimp only
        omega
    | succ n ih =>
      intro q hq
      rw [encLoop]
      split
      · next h =>
        have hstep : step ≠ 0 := ne_of_gt h.2.2
        have hkey : (q - step - qmin) / step = (q - qmin) / step - 1 := by
          field_simp
          ring
        have hpos : 0 < ⌈(q - qmin) / step⌉ :=
          Int.ceil_pos.mpr (div_pos (sub_pos.mpr h.2.1) h.2.2)
        have hml : (⌈(q - step - qmin) / step⌉).toNat ≤ n := by
          rw [hkey, Int.ceil_sub_one]
          omega
        have hrec := ih (q - step) hml
        have h2 : (⌈(q - step - qmin) / step⌉).toNat =
            (⌈(q - qmin) / step⌉).toNat - 1 := by
          rw [hkey, Int.ceil_sub_one]
          omega
        dsimp only
        omega
      · dsimp only
        omega
  intro q
  exact H ((⌈(q - qmin) / step⌉).toNat) q le_rfl

/-- The downscale step respects the cap and never upsizes. -/
theorem scaleDims_bounds (w h D : Nat) :
    max (scaleDims w h D).1 (scaleDims w h D).2 ≤ D ∧
    (scaleDims w h D).1 ≤ w ∧ (scaleDims w h D).2 ≤ h := by
  rw [scaleDims]
  by_cases hD : D < max w h
  · rw [if_pos hD]
    have hm0 : 0 < max w h := lt_of_le_of_lt (Nat.zero_le D) hD
    have hwD : w * D / max w h ≤ D := by
      calc w * D / max w h ≤ max w h * D / max w h :=
            Nat.div_le_div_right (Nat.mul_le_mul_right D (le_max_left w h))
        _ = D := Nat.mul_div_cancel_left D hm0
    have hhD : h * D / max w h ≤ D := by
      calc h * D / max w h ≤ max w h * D / max w h :=
            Nat.div_le_div_right (Nat.mul_le_mul_right D (le_max_right w h))
        _ = D := Nat.mul_div_cancel_left D hm0
    refine ⟨max_le hwD hhD, ?_, ?_⟩
    · calc w * D / max w h ≤ w * max w h / max w h :=
            Nat.div_le_div_right (Nat.mul_le_mul_left w (le_of_lt hD))
        _ = w := Nat.mul_div_cancel w hm0
    · calc h * D / max w h ≤ h * max w h / max w h :=
            Nat.div_le_div_right (Nat.mul_le_mul_left h (le_of_lt hD))
        _ = h := Nat.mul_div_cancel h hm0
  · rw [if_neg hD]
    exact ⟨Nat.le_of_not_lt hD, le_refl w, le_refl h⟩

/-- C9: for every source image and encoder, the preprocessor's output
dimensions satisfy `max (w, h) ≤ D`, it never increases resolution, and
it performs at most `⌈(q0 − qmin) / step⌉ + 1` encode attempts — being a
total function that always returns its best effort, it cannot fail even
when the byte ceiling is never met. -/
theorem preprocessor_bounds (enc : Nat → Nat → Rat → Nat) (w h D B : Nat)
    (q0 qmin step : Rat) :
    max (preprocess enc w h D B q0 qmin step).1.1
        (preprocess enc w h D B q0 qmin step).1.2 ≤ D ∧
    (preprocess enc w h D B q0 qmin step).1.1 ≤ w ∧
    (preprocess enc w h D B q0 qmin step).1.2 ≤ h ∧
    (preprocess enc w h D B q0 qmin step).2.2.2 ≤
      (⌈(q0 - qmin) / step⌉).toNat + 1 := by
  obtain ⟨h1, h2, h3⟩ := scaleDims_bounds w h D
  exact ⟨h1, h2, h3,
    encLoop_attempts (enc (scaleDims w h D).1 (scaleDims w h D).2)
      B qmin step q0⟩

end MenuPipeline
